import Mathlib

/-!
Verification of `easygui/boxes/egstore.py` (`EgStore`), a pickle-backed
persistent settings store.

The Python object's `__dict__` is modelled as an association list from
field names (strings) to values of an abstract type `V`; a Python dict
never holds a key twice, and all dict-producing operations below preserve
that.  The filesystem is a function from filenames (values of type `V`,
since the filename is itself stored as a field value) to the state of the
path: absent, failing with a non-ENOENT I/O error on open, present but
undecodable by `pickle.load`, or present with a decodable pickled state.
The pickle serializer is abstracted to the identity on the state mapping:
`pickle.dump(self)` stores the dict returned by `__getstate__`, and
`pickle.load` rebuilds an object whose `__dict__` is produced by
`__setstate__` applied to the stored state.
-/

set_option autoImplicit false

namespace EgStoreModel

variable {V : Type}

/-- A Python `dict` with `String` keys, as an association list.  Lookup
returns the first binding, matching dict semantics when keys are unique. -/
abbrev Dict (V : Type) := List (String × V)

/-- Python `d[k]` as an `Option`: the first binding of `k`, if any. -/
def Dict.lookup : Dict V → String → Option V
  | [], _ => none
  | (k', v) :: rest, k => if k' = k then some v else Dict.lookup rest k

/-- Python `d.keys()`, in insertion order. -/
def Dict.keys (d : Dict V) : List String := d.map Prod.fst

/-- Python `k in d`. -/
def Dict.hasKey (d : Dict V) (k : String) : Bool := (Dict.lookup d k).isSome

/-- Python `d[k] = v`: overwrite the binding in place if the key is
present, otherwise append a new binding. -/
def Dict.insert : Dict V → String → V → Dict V
  | [], k, v => [(k, v)]
  | (k', v') :: rest, k, v =>
      if k' = k then (k, v) :: rest else (k', v') :: Dict.insert rest k v

/-- Python `del d[k]` on a dict (no duplicate keys): drop the binding. -/
def Dict.erase : Dict V → String → Dict V
  | [], _ => []
  | (k', v) :: rest, k =>
      if k' = k then Dict.erase rest k else (k', v) :: Dict.erase rest k

/-- Python `d.update(items)`: assign each pair in order. -/
def Dict.update (d : Dict V) (items : List (String × V)) : Dict V :=
  items.foldl (fun acc kv => Dict.insert acc kv.1 kv.2) d

/-- The merge of `EgStore.restore` (egstore.py line 101):
`self.__dict__.update((key, value) for key, value in store.__dict__.items()
if key in self.__dict__)`.  The generator's membership test runs against
the dict being updated, so the fold's guard consults the accumulator. -/
def Dict.updateIfMem (self : Dict V) (items : List (String × V)) : Dict V :=
  items.foldl
    (fun acc kv => if Dict.hasKey acc kv.1 then Dict.insert acc kv.1 kv.2 else acc)
    self

/-- Python-level exceptions the modelled operations can raise. -/
inductive PyErr
  /-- `IOError` with `errno == ENOENT` (file not found). -/
  | notFound
  /-- `IOError` with any other errno. -/
  | ioError
  /-- `pickle.UnpicklingError` and kin: bytes that do not decode. -/
  | decodeError
  /-- `KeyError` from `del state[k]` on a missing key. -/
  | keyError
  /-- `AttributeError` from reading a missing attribute. -/
  | attrError
  /-- `ValueError` (failed tuple unpacking, `max` of an empty sequence). -/
  | valueError
deriving DecidableEq

/-- The state of one filesystem path. -/
inductive FSEntry (V : Type)
  /-- No such file: `open` raises `IOError` with `ENOENT`. -/
  | absent
  /-- `open` for reading raises an `IOError` whose errno is not `ENOENT`. -/
  | ioFail
  /-- A file whose bytes `pickle.load` cannot decode. -/
  | corrupt
  /-- A file holding the pickled state `state`. -/
  | good (state : Dict V)
deriving DecidableEq

/-- The filesystem: each filename value maps to the state of that path. -/
def FS (V : Type) := V → FSEntry V

/-- `os.path.isfile`: true for a regular file (decodable or not). -/
def FSEntry.isFile : FSEntry V → Bool
  | .good _ => true
  | .corrupt => true
  | _ => false

/-- `EgStore.__setstate__` (egstore.py lines 123-127) as the `__dict__` of
the freshly unpickled object: pickle creates the instance with an empty
`__dict__`, the method deletes `_filename` from the state if present and
then updates the empty dict with the remainder. -/
def setstate (state : Dict V) : Dict V :=
  Dict.update [] (Dict.erase state "_filename")

/-- `EgStore.restore` (egstore.py lines 98-102): read `self._filename`,
look the path up, unpickle (which runs `__setstate__`), then merge the
loaded object's `__dict__` into `self.__dict__`, keeping only keys that
`self.__dict__` already has. -/
def restore (fs : FS V) (self : Dict V) : Except PyErr (Dict V) :=
  match Dict.lookup self "_filename" with
  | none => .error .attrError
  | some fname =>
    match fs fname with
    | .absent => .error .notFound
    | .ioFail => .error .ioError
    | .corrupt => .error .decodeError
    | .good state => .ok (Dict.updateIfMem self (setstate state))

/-- `EgStore.__init__` (egstore.py lines 50-66): the subclass has already
set the default fields, then `self._filename = filename`, then `restore()`
with `IOError`-and-`ENOENT` recovered and every other error re-raised. -/
def init (fs : FS V) (defaults : Dict V) (fname : V) : Except PyErr (Dict V) :=
  let self := Dict.insert defaults "_filename" fname
  match restore fs self with
  | .ok r => .ok r
  | .error .notFound => .ok self
  | .error e => .error e

/-- `EgStore.__getstate__` (egstore.py lines 118-121): copy `__dict__`,
`del state['_filename']` (a `KeyError` if absent), return the copy. -/
def getstate (self : Dict V) : Except PyErr (Dict V) :=
  if Dict.hasKey self "_filename" then .ok (Dict.erase self "_filename")
  else .error .keyError

/-- Overwrite the state of one filesystem path. -/
def setFS [DecidableEq V] (fs : FS V) (fname : V) (e : FSEntry V) : FS V :=
  fun x => if x = fname then e else fs x

/-- `EgStore.store` (egstore.py lines 104-110): open `self._filename` for
writing and `pickle.dump(self)`, which serializes `__getstate__`'s result.
Returns the new filesystem together with the record after the call (the
record is untouched: `__getstate__` deletes from a copy of `__dict__`). -/
def store [DecidableEq V] (fs : FS V) (self : Dict V) :
    Except PyErr (FS V × Dict V) :=
  match Dict.lookup self "_filename" with
  | none => .error .attrError
  | some fname =>
    match getstate self with
    | .error e => .error e
    | .ok state => .ok (setFS fs fname (.good state), self)

/-- `EgStore.kill` (egstore.py lines 112-116): `os.remove` the path, but
only if `os.path.isfile` says it is a file. -/
def kill [DecidableEq V] (fs : FS V) (self : Dict V) : Except PyErr (FS V) :=
  match Dict.lookup self "_filename" with
  | none => .error .attrError
  | some fname =>
    if (fs fname).isFile then .ok (setFS fs fname .absent)
    else .ok fs

/-- Python `str.ljust`: pad on the right with spaces to the given width. -/
def ljust (s : String) (w : Nat) : String :=
  s ++ String.mk (List.replicate (w - s.length) ' ')

/-- Python `repr` of the one-character strings that tuple unpacking of a
key string produces (identifier characters need no escaping). -/
def pyRepr (s : String) : String := "'" ++ s ++ "'"

/-- Python tuple unpacking `key, value = s` of a string `s`: succeeds
exactly when `s` has two characters, else raises `ValueError`. -/
def unpack2 (s : String) : Except PyErr (String × String) :=
  match s.data with
  | [a, b] => .ok (String.mk [a], String.mk [b])
  | _ => .error .valueError

/-- Python's `<` on strings: lexicographic comparison by code point. -/
def charListLt : List Char → List Char → Bool
  | [], [] => false
  | [], _ :: _ => true
  | _ :: _, [] => false
  | a :: as, b :: bs =>
    if a.toNat < b.toNat then true
    else if b.toNat < a.toNat then false
    else charListLt as bs

/-- Python's `<` on strings, on the strings themselves. -/
def strLt (s t : String) : Bool := charListLt s.data t.data

/-- Stable insertion into a sorted list of strings. -/
def insertSorted (s : String) : List String → List String
  | [] => [s]
  | t :: rest => if strLt s t then s :: t :: rest else t :: insertSorted s rest

/-- Python `sorted` on strings: lexicographic by code point, stable. -/
def sortStrings : List String → List String
  | [] => []
  | s :: rest => insertSorted s (sortStrings rest)

/-- The generator consumed by `'\n'.join(...)` in `EgStore.__str__`: for
each string in the sorted key list, unpack it into `(key, value)` (raising
`ValueError` unless it has exactly two characters), keep it unless the
unpacked key equals `'_filename'`, and format the line. -/
def renderLines (width : Nat) : List String → Except PyErr (List String)
  | [] => .ok []
  | s :: rest =>
    match unpack2 s with
    | .error e => .error e
    | .ok (key, value) =>
      match renderLines width rest with
      | .error e => .error e
      | .ok tail =>
        if key ≠ "_filename" then
          .ok ((ljust key width ++ " : " ++ pyRepr value) :: tail)
        else .ok tail

/-- `EgStore.__str__` (egstore.py lines 129-133), exactly as written:
`width = max(len(key) for key in self.__dict__ if key != '_filename')`
(a `ValueError` on an empty sequence), then
`'\n'.join('{0} : {1!r}'.format(key.ljust(width), value)
for key, value in sorted(self.__dict__.keys()) if key != '_filename')`.
The loop iterates over the sorted KEY STRINGS and unpacks each string
into a `(key, value)` pair. -/
def strMeth (self : Dict V) : Except PyErr String :=
  match (Dict.keys self).filter (fun k => k ≠ "_filename") with
  | [] => .error .valueError
  | k :: ks =>
    let width := (ks.map String.length).foldl Nat.max k.length
    match renderLines width (sortStrings (Dict.keys self)) with
    | .error e => .error e
    | .ok lines => .ok (String.intercalate "\n" lines)

/-! ### Association-list lemmas -/

theorem Dict.lookup_insert (d : Dict V) (k : String) (v : V) :
    Dict.lookup (Dict.insert d k v) k = some v := by
  induction d with
  | nil => simp [Dict.insert, Dict.lookup]
  | cons kv rest ih =>
    obtain ⟨k', v'⟩ := kv
    by_cases h : k' = k
    · simp [Dict.insert, h, Dict.lookup]
    · simp [Dict.insert, h, Dict.lookup, ih]

theorem Dict.lookup_insert_ne (d : Dict V) {k' k : String} (v : V) (h : k' ≠ k) :
    Dict.lookup (Dict.insert d k' v) k = Dict.lookup d k := by
  induction d with
  | nil => simp [Dict.insert, Dict.lookup, h]
  | cons kv rest ih =>
    obtain ⟨a, b⟩ := kv
    by_cases ha : a = k'
    · simp [Dict.insert, ha, Dict.lookup, h]
    · simp only [Dict.insert, if_neg ha, Dict.lookup]
      by_cases hak : a = k
      · simp [hak]
      · simp [hak, ih]

theorem Dict.mem_keys_iff_lookup (d : Dict V) (k : String) :
    k ∈ Dict.keys d ↔ (Dict.lookup d k).isSome := by
  induction d with
  | nil => simp [Dict.keys, Dict.lookup]
  | cons kv rest ih =>
    obtain ⟨a, b⟩ := kv
    by_cases hak : a = k
    · simp [Dict.keys, Dict.lookup, hak]
    · simpa [Dict.keys, Dict.lookup, hak, Ne.symm hak] using ih

theorem Dict.hasKey_iff_mem_keys (d : Dict V) (k : String) :
    Dict.hasKey d k = true ↔ k ∈ Dict.keys d := by
  rw [Dict.hasKey, Dict.mem_keys_iff_lookup]

theorem Dict.lookup_eq_none_of_not_mem (d : Dict V) {k : String}
    (h : k ∉ Dict.keys d) : Dict.lookup d k = none := by
  have := (Dict.mem_keys_iff_lookup d k).not.mp h
  cases hl : Dict.lookup d k with
  | none => rfl
  | some v => rw [hl] at this; simp at this

theorem Dict.keys_cons (a : String) (b : V) (rest : Dict V) :
    Dict.keys ((a, b) :: rest) = a :: Dict.keys rest := rfl

theorem Dict.keys_insert_of_hasKey (d : Dict V) {k : String} (v : V)
    (h : Dict.hasKey d k = true) :
    Dict.keys (Dict.insert d k v) = Dict.keys d := by
  induction d with
  | nil => simp [Dict.hasKey, Dict.lookup] at h
  | cons kv rest ih =>
    obtain ⟨a, b⟩ := kv
    by_cases hak : a = k
    · simp [Dict.insert, hak, Dict.keys_cons]
    · have h' : Dict.hasKey rest k = true := by
        simpa [Dict.hasKey, Dict.lookup, hak] using h
      simp [Dict.insert, hak, Dict.keys_cons, ih h']

theorem Dict.insert_cons_eq (a : String) (b v : V) (rest : Dict V) :
    Dict.insert ((a, b) :: rest) a v = (a, v) :: rest := by
  simp [Dict.insert]

theorem Dict.insert_cons_ne {a k : String} (b : V) (rest : Dict V) (v : V)
    (h : a ≠ k) :
    Dict.insert ((a, b) :: rest) k v = (a, b) :: Dict.insert rest k v := by
  simp [Dict.insert, h]

theorem Dict.mem_keys_insert (d : Dict V) (k x : String) (v : V) :
    x ∈ Dict.keys (Dict.insert d k v) ↔ x ∈ Dict.keys d ∨ x = k := by
  induction d with
  | nil => simp [Dict.insert, Dict.keys]
  | cons kv rest ih =>
    obtain ⟨a, b⟩ := kv
    by_cases hak : a = k
    · subst hak
      rw [Dict.insert_cons_eq]
      simp only [Dict.keys_cons, List.mem_cons]
      tauto
    · rw [Dict.insert_cons_ne b rest v hak]
      simp only [Dict.keys_cons, List.mem_cons, ih]
      tauto

theorem Dict.insert_of_not_hasKey (d : Dict V) {k : String} (v : V)
    (h : Dict.hasKey d k = false) :
    Dict.insert d k v = d ++ [(k, v)] := by
  induction d with
  | nil => simp [Dict.insert]
  | cons kv rest ih =>
    obtain ⟨a, b⟩ := kv
    by_cases hak : a = k
    · simp [Dict.hasKey, Dict.lookup, hak] at h
    · have h' : Dict.hasKey rest k = false := by
        simpa [Dict.hasKey, Dict.lookup, hak] using h
      simp [Dict.insert, hak, ih h']

theorem Dict.nodup_keys_insert (d : Dict V) (k : String) (v : V)
    (h : (Dict.keys d).Nodup) : (Dict.keys (Dict.insert d k v)).Nodup := by
  induction d with
  | nil => simp [Dict.insert, Dict.keys]
  | cons kv rest ih =>
    obtain ⟨a, b⟩ := kv
    simp only [Dict.keys_cons, List.nodup_cons] at h
    by_cases hak : a = k
    · subst hak
      rw [Dict.insert_cons_eq]
      simp only [Dict.keys_cons, List.nodup_cons]
      exact h
    · rw [Dict.insert_cons_ne b rest v hak]
      simp only [Dict.keys_cons, List.nodup_cons]
      refine ⟨?_, ih h.2⟩
      intro hmem
      rcases (Dict.mem_keys_insert rest k a v).mp hmem with hm | hm
      · exact h.1 hm
      · exact hak hm

theorem Dict.lookup_eq_none_of_hasKey_false (d : Dict V) (k : String)
    (h : Dict.hasKey d k = false) : Dict.lookup d k = none := by
  rw [Dict.hasKey] at h
  cases hl : Dict.lookup d k with
  | none => rfl
  | some v => rw [hl] at h; simp at h

theorem Dict.updateIfMem_cons (self : Dict V) (k : String) (v : V)
    (rest : List (String × V)) :
    Dict.updateIfMem self ((k, v) :: rest) =
      Dict.updateIfMem
        (if Dict.hasKey self k then Dict.insert self k v else self) rest := rfl

theorem Dict.keys_updateIfMem (items : List (String × V)) :
    ∀ self : Dict V,
      Dict.keys (Dict.updateIfMem self items) = Dict.keys self := by
  induction items with
  | nil => intro self; rfl
  | cons kv rest ih =>
    obtain ⟨k, v⟩ := kv
    intro self
    rw [Dict.updateIfMem_cons]
    by_cases h : Dict.hasKey self k = true
    · rw [if_pos h, ih, Dict.keys_insert_of_hasKey self v h]
    · rw [if_neg h, ih]

theorem Dict.hasKey_updateIfMem (self : Dict V) (items : List (String × V))
    (k : String) :
    Dict.hasKey (Dict.updateIfMem self items) k = Dict.hasKey self k := by
  have hk := Dict.keys_updateIfMem items self
  rw [Bool.eq_iff_iff, Dict.hasKey_iff_mem_keys, Dict.hasKey_iff_mem_keys, hk]

theorem Dict.lookup_updateIfMem_not_items (items : List (String × V))
    (k : String) :
    ∀ self : Dict V, Dict.hasKey items k = false →
      Dict.lookup (Dict.updateIfMem self items) k = Dict.lookup self k := by
  induction items with
  | nil => intro self _; rfl
  | cons kv rest ih =>
    obtain ⟨a, b⟩ := kv
    intro self h
    have hak : a ≠ k := by
      intro e
      subst e
      simp [Dict.hasKey, Dict.lookup] at h
    have h' : Dict.hasKey rest k = false := by
      simpa [Dict.hasKey, Dict.lookup, hak] using h
    rw [Dict.updateIfMem_cons]
    by_cases hs : Dict.hasKey self a = true
    · rw [if_pos hs, ih _ h', Dict.lookup_insert_ne self b hak]
    · rw [if_neg hs, ih _ h']

theorem Dict.lookup_updateIfMem_mem (items : List (String × V)) (k : String) :
    ∀ self : Dict V, (Dict.keys items).Nodup → Dict.hasKey self k = true →
      Dict.hasKey items k = true →
      Dict.lookup (Dict.updateIfMem self items) k = Dict.lookup items k := by
  induction items with
  | nil => intro self _ _ hi; simp [Dict.hasKey, Dict.lookup] at hi
  | cons kv rest ih =>
    obtain ⟨a, b⟩ := kv
    intro self hnd hs hi
    simp only [Dict.keys_cons, List.nodup_cons] at hnd
    rw [Dict.updateIfMem_cons]
    by_cases hak : a = k
    · subst hak
      rw [if_pos hs]
      have hrest : Dict.hasKey rest a = false := by
        cases hb : Dict.hasKey rest a
        · rfl
        · exact absurd ((Dict.hasKey_iff_mem_keys rest a).mp hb) hnd.1
      rw [Dict.lookup_updateIfMem_not_items rest a _ hrest, Dict.lookup_insert]
      simp [Dict.lookup]
    · have hi' : Dict.hasKey rest k = true := by
        simpa [Dict.hasKey, Dict.lookup, hak] using hi
      have hlook : Dict.lookup ((a, b) :: rest) k = Dict.lookup rest k := by
        simp [Dict.lookup, hak]
      rw [hlook]
      by_cases hsa : Dict.hasKey self a = true
      · have hs' : Dict.hasKey (Dict.insert self a b) k = true := by
          rw [Dict.hasKey_iff_mem_keys, Dict.mem_keys_insert]
          exact Or.inl ((Dict.hasKey_iff_mem_keys self k).mp hs)
        rw [if_pos hsa, ih _ hnd.2 hs' hi']
      · rw [if_neg hsa, ih _ hnd.2 hs hi']

theorem Dict.update_cons (d : Dict V) (k : String) (v : V)
    (rest : List (String × V)) :
    Dict.update d ((k, v) :: rest) = Dict.update (Dict.insert d k v) rest := rfl

theorem Dict.lookup_update_not_items (items : List (String × V)) (k : String) :
    ∀ d : Dict V, Dict.hasKey items k = false →
      Dict.lookup (Dict.update d items) k = Dict.lookup d k := by
  induction items with
  | nil => intro d _; rfl
  | cons kv rest ih =>
    obtain ⟨a, b⟩ := kv
    intro d h
    have hak : a ≠ k := by
      intro e
      subst e
      simp [Dict.hasKey, Dict.lookup] at h
    have h' : Dict.hasKey rest k = false := by
      simpa [Dict.hasKey, Dict.lookup, hak] using h
    rw [Dict.update_cons, ih _ h', Dict.lookup_insert_ne d b hak]

theorem Dict.keys_append (d e : Dict V) :
    Dict.keys (d ++ e) = Dict.keys d ++ Dict.keys e := List.map_append _ _ _

theorem Dict.update_eq_append (items : List (String × V)) :
    ∀ d : Dict V, (Dict.keys (d ++ items)).Nodup →
      Dict.update d items = d ++ items := by
  induction items with
  | nil => intro d _; simp [Dict.update]
  | cons kv rest ih =>
    obtain ⟨a, b⟩ := kv
    intro d hnd
    have hsplit : Dict.keys (d ++ (a, b) :: rest)
        = Dict.keys d ++ a :: Dict.keys rest := by
      rw [Dict.keys_append, Dict.keys_cons]
    rw [hsplit] at hnd
    rcases List.nodup_append.mp hnd with ⟨h1, h2, hdisj⟩
    have hka : Dict.hasKey d a = false := by
      cases hb : Dict.hasKey d a
      · rfl
      · exact absurd (List.mem_cons_self a _)
          (hdisj ((Dict.hasKey_iff_mem_keys d a).mp hb))
    have hstep : (d ++ [(a, b)]) ++ rest = d ++ (a, b) :: rest := by
      rw [List.append_assoc]
      rfl
    rw [Dict.update_cons, Dict.insert_of_not_hasKey d b hka, ← hstep]
    refine ih (d ++ [(a, b)]) ?_
    rw [hstep, hsplit]
    exact hnd

theorem Dict.nodup_keys_update (items : List (String × V)) :
    ∀ d : Dict V, (Dict.keys d).Nodup →
      (Dict.keys (Dict.update d items)).Nodup := by
  induction items with
  | nil => intro d h; exact h
  | cons kv rest ih =>
    obtain ⟨a, b⟩ := kv
    intro d h
    rw [Dict.update_cons]
    exact ih _ (Dict.nodup_keys_insert d a b h)

theorem Dict.erase_cons_eq (a : String) (b : V) (rest : Dict V) :
    Dict.erase ((a, b) :: rest) a = Dict.erase rest a := by
  simp [Dict.erase]

theorem Dict.erase_cons_ne {a k : String} (b : V) (rest : Dict V) (h : a ≠ k) :
    Dict.erase ((a, b) :: rest) k = (a, b) :: Dict.erase rest k := by
  simp [Dict.erase, h]

theorem Dict.lookup_erase_self (d : Dict V) (k : String) :
    Dict.lookup (Dict.erase d k) k = none := by
  induction d with
  | nil => rfl
  | cons kv rest ih =>
    obtain ⟨a, b⟩ := kv
    by_cases hak : a = k
    · simp [Dict.erase, hak, ih]
    · simp [Dict.erase, hak, Dict.lookup, ih]

theorem Dict.lookup_erase_ne (d : Dict V) {k x : String} (h : x ≠ k) :
    Dict.lookup (Dict.erase d k) x = Dict.lookup d x := by
  induction d with
  | nil => rfl
  | cons kv rest ih =>
    obtain ⟨a, b⟩ := kv
    by_cases hak : a = k
    · subst hak
      rw [Dict.erase_cons_eq, ih]
      simp [Dict.lookup, Ne.symm h]
    · rw [Dict.erase_cons_ne b rest hak]
      by_cases hax : a = x
      · simp [Dict.lookup, hax]
      · simp [Dict.lookup, hax, ih]

theorem Dict.mem_keys_erase (d : Dict V) (k x : String) :
    x ∈ Dict.keys (Dict.erase d k) ↔ x ∈ Dict.keys d ∧ x ≠ k := by
  induction d with
  | nil => simp [Dict.erase, Dict.keys]
  | cons kv rest ih =>
    obtain ⟨a, b⟩ := kv
    by_cases hak : a = k
    · subst hak
      rw [Dict.erase_cons_eq]
      simp only [Dict.keys_cons, List.mem_cons, ih]
      constructor
      · rintro ⟨hm, hne⟩
        exact ⟨Or.inr hm, hne⟩
      · rintro ⟨hm | hm, hne⟩
        · exact absurd hm hne
        · exact ⟨hm, hne⟩
    · rw [Dict.erase_cons_ne b rest hak]
      simp only [Dict.keys_cons, List.mem_cons, ih]
      constructor
      · rintro (he | ⟨hm, hne⟩)
        · subst he
          exact ⟨Or.inl rfl, hak⟩
        · exact ⟨Or.inr hm, hne⟩
      · rintro ⟨ha | hm, hne⟩
        · exact Or.inl ha
        · exact Or.inr ⟨hm, hne⟩

theorem Dict.nodup_keys_erase (d : Dict V) (k : String)
    (h : (Dict.keys d).Nodup) : (Dict.keys (Dict.erase d k)).Nodup := by
  induction d with
  | nil => simp [Dict.erase, Dict.keys]
  | cons kv rest ih =>
    obtain ⟨a, b⟩ := kv
    simp only [Dict.keys_cons, List.nodup_cons] at h
    by_cases hak : a = k
    · subst hak
      rw [Dict.erase_cons_eq]
      exact ih h.2
    · rw [Dict.erase_cons_ne b rest hak]
      simp only [Dict.keys_cons, List.nodup_cons]
      refine ⟨?_, ih h.2⟩
      intro hmem
      exact h.1 ((Dict.mem_keys_erase rest k a).mp hmem).1

theorem Dict.erase_eq_self_of_not_hasKey (d : Dict V) {k : String}
    (h : Dict.hasKey d k = false) : Dict.erase d k = d := by
  induction d with
  | nil => rfl
  | cons kv rest ih =>
    obtain ⟨a, b⟩ := kv
    have hak : a ≠ k := by
      intro e
      subst e
      simp [Dict.hasKey, Dict.lookup] at h
    have h' : Dict.hasKey rest k = false := by
      simpa [Dict.hasKey, Dict.lookup, hak] using h
    simp [Dict.erase, hak, ih h']

/-! ### Properties of `__setstate__`'s result -/

theorem lookup_setstate_filename (st : Dict V) :
    Dict.lookup (setstate st) "_filename" = none := by
  rw [setstate, Dict.lookup_update_not_items _ _ _ ?_]
  · rfl
  · rw [Dict.hasKey, Dict.lookup_erase_self]
    rfl

theorem hasKey_setstate_filename (st : Dict V) :
    Dict.hasKey (setstate st) "_filename" = false := by
  rw [Dict.hasKey, lookup_setstate_filename]
  rfl

theorem nodup_keys_setstate (st : Dict V) :
    (Dict.keys (setstate st)).Nodup :=
  Dict.nodup_keys_update _ [] (by simp [Dict.keys])

theorem setstate_eq_of_nodup (st : Dict V) (hnd : (Dict.keys st).Nodup)
    (hnf : Dict.hasKey st "_filename" = false) : setstate st = st := by
  rw [setstate, Dict.erase_eq_self_of_not_hasKey st hnf]
  exact (Dict.update_eq_append st [] (by simpa using hnd)).trans
    (List.nil_append st)

theorem Dict.keys_erase (d : Dict V) (k : String) :
    Dict.keys (Dict.erase d k) = (Dict.keys d).filter (fun x => x ≠ k) := by
  induction d with
  | nil => rfl
  | cons kv rest ih =>
    obtain ⟨a, b⟩ := kv
    by_cases hak : a = k
    · subst hak
      rw [Dict.erase_cons_eq, ih, Dict.keys_cons]
      simp [List.filter_cons]
    · rw [Dict.erase_cons_ne b rest hak, Dict.keys_cons, Dict.keys_cons, ih]
      simp [List.filter_cons, hak]

theorem getstate_eq (self : Dict V)
    (hkey : Dict.hasKey self "_filename" = true) :
    getstate self = .ok (Dict.erase self "_filename") := by
  simp [getstate, hkey]

theorem setFS_same [DecidableEq V] (fs : FS V) (fname : V) (e : FSEntry V) :
    setFS fs fname e fname = e := by
  simp [setFS]

/-! ### Claim theorems -/

/-- C2 (schema closure): after construct-then-restore, and after any
successful `restore()`, the record's key set equals exactly the key set it
had immediately after construction — never more, never fewer — regardless
of what keys existed in the persisted data. -/
theorem schema_closure (fs : FS V) :
    (∀ defaults : Dict V, ∀ fname : V, ∀ r : Dict V,
        init fs defaults fname = .ok r →
        Dict.keys r = Dict.keys (Dict.insert defaults "_filename" fname)) ∧
    (∀ self r : Dict V, restore fs self = .ok r →
        Dict.keys r = Dict.keys self) := by
  have hres : ∀ self r : Dict V, restore fs self = .ok r →
      Dict.keys r = Dict.keys self := by
    intro self r h
    cases hfn : Dict.lookup self "_filename" with
    | none => simp [restore, hfn] at h
    | some fname =>
      cases hfs : fs fname with
      | absent => simp [restore, hfn, hfs] at h
      | ioFail => simp [restore, hfn, hfs] at h
      | corrupt => simp [restore, hfn, hfs] at h
      | good st =>
        simp only [restore, hfn, hfs, Except.ok.injEq] at h
        rw [← h]
        exact Dict.keys_updateIfMem _ _
  refine ⟨?_, hres⟩
  intro defaults fname r h
  simp only [init] at h
  cases hr : restore fs (Dict.insert defaults "_filename" fname) with
  | ok r2 =>
    rw [hr] at h
    simp only [Except.ok.injEq] at h
    rw [← h]
    exact hres _ _ hr
  | error e =>
    rw [hr] at h
    cases e with
    | notFound =>
      simp only [Except.ok.injEq] at h
      rw [← h]
    | ioError => simp at h
    | decodeError => simp at h
    | keyError => simp at h
    | attrError => simp at h
    | valueError => simp at h

/-- Closed instance of C2: a persisted state with an extra key `c` and a
missing key `b` still yields exactly the constructed key set. -/
theorem schema_closure_check :
    init (fun _ => FSEntry.good [("a", "x"), ("c", "z")])
        [("a", "d"), ("b", "e")] "f"
      = .ok [("a", "x"), ("b", "e"), ("_filename", "f")] ∧
    Dict.keys ([("a", "x"), ("b", "e"), ("_filename", "f")] : Dict String)
      = Dict.keys (Dict.insert [("a", "d"), ("b", "e")] "_filename" "f") :=
  ⟨rfl,
    (schema_closure (fun _ => FSEntry.good [("a", "x"), ("c", "z")])).1
      [("a", "d"), ("b", "e")] "f"
      [("a", "x"), ("b", "e"), ("_filename", "f")] rfl⟩

/-- C4 (missing-file tolerance): constructing a store against a
nonexistent backing identifier never raises, and the resulting record is
the supplied defaults (plus the backing identifier), exactly. -/
theorem missing_file_defaults (fs : FS V) (defaults : Dict V) (fname : V)
    (k : String) (h : fs fname = FSEntry.absent) (hk : k ≠ "_filename") :
    init fs defaults fname = .ok (Dict.insert defaults "_filename" fname) ∧
    Dict.lookup (Dict.insert defaults "_filename" fname) k
      = Dict.lookup defaults k := by
  constructor
  · simp only [init, restore, Dict.lookup_insert, h]
  · exact Dict.lookup_insert_ne defaults fname (Ne.symm hk)

/-- Closed instance of C4 on an empty filesystem. -/
theorem missing_file_defaults_check :
    init (fun _ => FSEntry.absent) [("a", "d")] "f"
      = .ok (Dict.insert [("a", "d")] "_filename" "f") ∧
    Dict.lookup (Dict.insert [("a", "d")] "_filename" "f") "a"
      = Dict.lookup ([("a", "d")] : Dict String) "a" :=
  missing_file_defaults (fun _ => FSEntry.absent) [("a", "d")] "f" "a" rfl
    (by decide)

/-- C5 (error propagation at construction): a failure of the restore
attempt during construction other than the not-found condition — an I/O
error with an errno other than `ENOENT`, or a decode error from the
deserializer — propagates to the caller unchanged: `init` surfaces the
very error that an explicit `restore()` would raise on the same state. -/
theorem init_error_propagation (fs : FS V) (defaults self : Dict V)
    (fname : V) (e : FSEntry V) (err : PyErr)
    (hfs : fs fname = e)
    (hfn : Dict.lookup self "_filename" = some fname)
    (he : (e = FSEntry.ioFail ∧ err = PyErr.ioError) ∨
          (e = FSEntry.corrupt ∧ err = PyErr.decodeError)) :
    init fs defaults fname = .error err ∧ restore fs self = .error err := by
  rcases he with ⟨he1, he2⟩ | ⟨he1, he2⟩ <;> subst he1 <;> subst he2 <;>
    exact ⟨by simp only [init, restore, Dict.lookup_insert, hfs],
           by simp only [restore, hfn, hfs]⟩

/-- Closed instance of C5: a path whose open fails with a non-`ENOENT`
I/O error makes construction fail with that I/O error. -/
theorem init_error_propagation_check :
    init (fun _ => FSEntry.ioFail) [("a", "d")] "f"
      = .error PyErr.ioError ∧
    restore (fun _ => FSEntry.ioFail) ([("_filename", "f")] : Dict String)
      = .error PyErr.ioError :=
  init_error_propagation (fun _ => FSEntry.ioFail) [("a", "d")]
    [("_filename", "f")] "f" FSEntry.ioFail PyErr.ioError rfl rfl
    (Or.inl ⟨rfl, rfl⟩)

/-- C9 (frame effect of `restore`): for every persisted state, including
an adversarial one that contains a `_filename` entry, the record's backing
identifier after `restore()` equals its value before the call, because
`__setstate__` strips any `_filename` key before the merge. -/
theorem restore_preserves_filename (fs : FS V) (self P : Dict V) (fname : V)
    (hfn : Dict.lookup self "_filename" = some fname)
    (hfs : fs fname = FSEntry.good P) :
    restore fs self = .ok (Dict.updateIfMem self (setstate P)) ∧
    Dict.lookup (setstate P) "_filename" = none ∧
    Dict.lookup (Dict.updateIfMem self (setstate P)) "_filename"
      = some fname := by
  refine ⟨by simp only [restore, hfn, hfs], lookup_setstate_filename P, ?_⟩
  rw [Dict.lookup_updateIfMem_not_items (setstate P) "_filename" self
    (hasKey_setstate_filename P), hfn]

/-- Closed instance of C9: the persisted state tries to smuggle in
`_filename = "evil"`, and the record keeps `_filename = "f"`. -/
theorem restore_preserves_filename_check :
    restore (fun _ => FSEntry.good [("_filename", "evil"), ("a", "9")])
        [("a", "1"), ("_filename", "f")]
      = .ok (Dict.updateIfMem [("a", "1"), ("_filename", "f")]
          (setstate [("_filename", "evil"), ("a", "9")])) ∧
    Dict.lookup (setstate [("_filename", "evil"), ("a", "9")]) "_filename"
      = none ∧
    Dict.lookup (Dict.updateIfMem [("a", "1"), ("_filename", "f")]
        (setstate [("_filename", "evil"), ("a", "9")])) "_filename"
      = some "f" :=
  restore_preserves_filename
    (fun _ => FSEntry.good [("_filename", "evil"), ("a", "9")])
    [("a", "1"), ("_filename", "f")] [("_filename", "evil"), ("a", "9")]
    "f" rfl rfl

/-- C10 (frame effect of `store`): `store()` does not mutate the
in-memory record — the record after the call, including its backing
identifier, equals the record before the call, because `__getstate__`
deletes the identifier from a copy of `__dict__`, not from the live
record. -/
theorem store_no_mutation [DecidableEq V] (fs fs2 : FS V)
    (self self2 : Dict V) (h : store fs self = .ok (fs2, self2)) :
    self2 = self ∧
    Dict.lookup self2 "_filename" = Dict.lookup self "_filename" := by
  unfold store at h
  cases hfn : Dict.lookup self "_filename" with
  | none => rw [hfn] at h; simp at h
  | some fname =>
    rw [hfn] at h
    cases hg : getstate self with
    | error e => rw [hg] at h; simp at h
    | ok st =>
      rw [hg] at h
      simp only [Except.ok.injEq, Prod.mk.injEq] at h
      refine ⟨h.2.symm, ?_⟩
      rw [← h.2]
      exact hfn

/-- Closed instance of C10: storing a two-field record returns the very
same record. -/
theorem store_no_mutation_check :
    store (fun _ => FSEntry.absent) ([("a", "1"), ("_filename", "f")] : Dict String)
      = .ok (fun x => if x = "f" then FSEntry.good [("a", "1")] else FSEntry.absent,
             [("a", "1"), ("_filename", "f")]) ∧
    ([("a", "1"), ("_filename", "f")] : Dict String)
      = [("a", "1"), ("_filename", "f")] ∧
    Dict.lookup ([("a", "1"), ("_filename", "f")] : Dict String) "_filename"
      = Dict.lookup ([("a", "1"), ("_filename", "f")] : Dict String) "_filename" :=
  ⟨rfl,
    store_no_mutation (fun _ => FSEntry.absent)
      (fun x => if x = "f" then FSEntry.good [("a", "1")] else FSEntry.absent)
      [("a", "1"), ("_filename", "f")] [("a", "1"), ("_filename", "f")] rfl⟩

/-- C1 (merge correctness of `restore`): take a record whose field set is
its schema `S` (the backing identifier included) and a persisted field
mapping `P` (a mapping, so no duplicate keys; and per the data model the
backing identifier is never persisted as data).  After `restore()`, a
field name in `S ∩ P` holds the persisted value, a field name in `S \ P`
keeps its current (default) value, and a field name in `P \ S` is absent
from the result. -/
theorem restore_merge (fs : FS V) (self P : Dict V) (fname : V) (k : String)
    (hfn : Dict.lookup self "_filename" = some fname)
    (hfs : fs fname = FSEntry.good P)
    (hnd : (Dict.keys P).Nodup)
    (hnf : Dict.hasKey P "_filename" = false) :
    restore fs self = .ok (Dict.updateIfMem self (setstate P)) ∧
    Dict.lookup (Dict.updateIfMem self (setstate P)) k =
      (if Dict.hasKey self k then
        (if Dict.hasKey P k then Dict.lookup P k else Dict.lookup self k)
       else none) := by
  have hset : setstate P = P := setstate_eq_of_nodup P hnd hnf
  refine ⟨by simp only [restore, hfn, hfs], ?_⟩
  rw [hset]
  by_cases hs : Dict.hasKey self k = true
  · rw [if_pos hs]
    by_cases hp : Dict.hasKey P k = true
    · rw [if_pos hp]
      exact Dict.lookup_updateIfMem_mem P k self hnd hs hp
    · have hp' : Dict.hasKey P k = false := by
        cases hb : Dict.hasKey P k with
        | false => rfl
        | true => exact absurd hb hp
      rw [if_neg hp]
      exact Dict.lookup_updateIfMem_not_items P k self hp'
  · rw [if_neg hs]
    have hs' : Dict.hasKey self k = false := by
      cases hb : Dict.hasKey self k with
      | false => rfl
      | true => exact absurd hb hs
    have habs : Dict.hasKey (Dict.updateIfMem self P) k = false := by
      rw [Dict.hasKey_updateIfMem]
      exact hs'
    exact Dict.lookup_eq_none_of_hasKey_false _ k habs

/-- Closed instance of C1: schema `{a, b, _filename}`, persisted mapping
`{a, c}`; the field `a` (in the intersection) takes the persisted value. -/
theorem restore_merge_check :
    Dict.lookup ([("a", "1"), ("b", "2"), ("_filename", "f")] : Dict String)
        "_filename" = some "f" ∧
    (Dict.keys ([("a", "9"), ("c", "7")] : Dict String)).Nodup ∧
    Dict.hasKey ([("a", "9"), ("c", "7")] : Dict String) "_filename" = false ∧
    (restore (fun _ => FSEntry.good [("a", "9"), ("c", "7")])
        [("a", "1"), ("b", "2"), ("_filename", "f")]
      = .ok (Dict.updateIfMem [("a", "1"), ("b", "2"), ("_filename", "f")]
          (setstate [("a", "9"), ("c", "7")])) ∧
     Dict.lookup (Dict.updateIfMem [("a", "1"), ("b", "2"), ("_filename", "f")]
         (setstate [("a", "9"), ("c", "7")])) "a" =
       (if Dict.hasKey [("a", "1"), ("b", "2"), ("_filename", "f")] "a" then
         (if Dict.hasKey [("a", "9"), ("c", "7")] "a" then
           Dict.lookup [("a", "9"), ("c", "7")] "a"
          else Dict.lookup [("a", "1"), ("b", "2"), ("_filename", "f")] "a")
        else none)) :=
  ⟨rfl, by decide, rfl,
    restore_merge (fun _ => FSEntry.good [("a", "9"), ("c", "7")])
      [("a", "1"), ("b", "2"), ("_filename", "f")] [("a", "9"), ("c", "7")]
      "f" "a" rfl rfl (by decide) rfl⟩

/-- C6: `store()` hands the serializer exactly the record's current field
mapping minus the backing-identifier field: the persisted state's key set
is the record's key set without `_filename`, every other field keeps its
value, and the backing identifier is never part of the persisted data. -/
theorem store_excludes_filename [DecidableEq V] (fs : FS V) (self : Dict V)
    (fname : V) (k : String)
    (hfn : Dict.lookup self "_filename" = some fname)
    (hk : k ≠ "_filename") :
    store fs self
      = .ok (setFS fs fname (FSEntry.good (Dict.erase self "_filename")), self) ∧
    Dict.keys (Dict.erase self "_filename")
      = (Dict.keys self).filter (fun x => x ≠ "_filename") ∧
    Dict.lookup (Dict.erase self "_filename") "_filename" = none ∧
    Dict.lookup (Dict.erase self "_filename") k = Dict.lookup self k := by
  have hkey : Dict.hasKey self "_filename" = true := by
    rw [Dict.hasKey, hfn]
    rfl
  exact ⟨by simp only [store, hfn, getstate_eq self hkey],
    Dict.keys_erase self "_filename",
    Dict.lookup_erase_self self "_filename",
    Dict.lookup_erase_ne self hk⟩

/-- Closed instance of C6 on a two-field record. -/
theorem store_excludes_filename_check :
    store (fun _ => FSEntry.absent)
        ([("a", "1"), ("_filename", "f")] : Dict String)
      = .ok (setFS (fun _ => FSEntry.absent) "f"
          (FSEntry.good (Dict.erase [("a", "1"), ("_filename", "f")] "_filename")),
          [("a", "1"), ("_filename", "f")]) ∧
    Dict.keys (Dict.erase ([("a", "1"), ("_filename", "f")] : Dict String)
        "_filename")
      = (Dict.keys ([("a", "1"), ("_filename", "f")] : Dict String)).filter
          (fun x => x ≠ "_filename") ∧
    Dict.lookup (Dict.erase ([("a", "1"), ("_filename", "f")] : Dict String)
        "_filename") "_filename" = none ∧
    Dict.lookup (Dict.erase ([("a", "1"), ("_filename", "f")] : Dict String)
        "_filename") "a"
      = Dict.lookup ([("a", "1"), ("_filename", "f")] : Dict String) "a" :=
  store_excludes_filename (fun _ => FSEntry.absent)
    [("a", "1"), ("_filename", "f")] "f" "a" rfl (by decide)

/-- C7 (kill idempotence and tolerance): deleting the backing store when
it is already absent does not raise and leaves the filesystem unchanged;
and whenever the backing identifier denotes a regular file or nothing,
`kill()` succeeds and a fresh construction against the resulting
filesystem with the same identifier yields the supplied defaults. -/
theorem kill_idempotent [DecidableEq V] (fs : FS V) (self defaults : Dict V)
    (fname : V)
    (hfn : Dict.lookup self "_filename" = some fname)
    (hstate : fs fname = FSEntry.absent ∨ (fs fname).isFile = true) :
    (fs fname = FSEntry.absent → kill fs self = .ok fs) ∧
    kill fs self
      = .ok (if (fs fname).isFile then setFS fs fname FSEntry.absent else fs) ∧
    init (if (fs fname).isFile then setFS fs fname FSEntry.absent else fs)
        defaults fname
      = .ok (Dict.insert defaults "_filename" fname) := by
  refine ⟨?_, ?_, ?_⟩
  · intro habs
    simp [kill, hfn, habs, FSEntry.isFile]
  · cases hb : (fs fname).isFile with
    | true => simp [kill, hfn, hb]
    | false => simp [kill, hfn, hb]
  · cases hb : (fs fname).isFile with
    | true =>
      rw [if_pos rfl]
      simp only [init, restore, Dict.lookup_insert, setFS_same]
    | false =>
      rw [if_neg Bool.false_ne_true]
      rcases hstate with habs | hfile
      · simp only [init, restore, Dict.lookup_insert, habs]
      · rw [hb] at hfile
        exact absurd hfile Bool.false_ne_true

/-- Closed instance of C7: deleting on an empty filesystem is a no-op and
a fresh construction afterwards yields the defaults. -/
theorem kill_idempotent_check :
    kill (fun _ => FSEntry.absent) ([("_filename", "f")] : Dict String)
      = .ok (fun _ => FSEntry.absent) ∧
    init (fun _ => FSEntry.absent) [("a", "d")] "f"
      = .ok (Dict.insert [("a", "d")] "_filename" "f") :=
  ⟨(kill_idempotent (fun _ => FSEntry.absent) [("_filename", "f")]
      [("a", "d")] "f" rfl (Or.inl rfl)).1 rfl,
   (kill_idempotent (fun _ => FSEntry.absent) [("_filename", "f")]
      [("a", "d")] "f" rfl (Or.inl rfl)).2.2⟩

/-- C3 (round-trip): for a record `r` whose field set is its schema (no
duplicate keys, backing identifier present), `store(r)` followed by
constructing a fresh store against the resulting filesystem with the same
backing identifier and the same schema (defaults with the same non-identifier
key set) yields a record whose field values all equal `r`'s at the time of
the `store()` call. -/
theorem round_trip [DecidableEq V] (fs : FS V) (self defaults : Dict V)
    (fname : V) (k : String)
    (hnd : (Dict.keys self).Nodup)
    (hfn : Dict.lookup self "_filename" = some fname)
    (hschema : Dict.keys defaults = Dict.keys (Dict.erase self "_filename")) :
    store fs self
      = .ok (setFS fs fname (FSEntry.good (Dict.erase self "_filename")), self) ∧
    init (setFS fs fname (FSEntry.good (Dict.erase self "_filename")))
        defaults fname
      = .ok (Dict.updateIfMem (Dict.insert defaults "_filename" fname)
          (setstate (Dict.erase self "_filename"))) ∧
    Dict.lookup (Dict.updateIfMem (Dict.insert defaults "_filename" fname)
        (setstate (Dict.erase self "_filename"))) k
      = Dict.lookup self k := by
  have hkey : Dict.hasKey self "_filename" = true := by
    rw [Dict.hasKey, hfn]
    rfl
  have hPnf : Dict.hasKey (Dict.erase self "_filename") "_filename" = false := by
    rw [Dict.hasKey, Dict.lookup_erase_self]
    rfl
  have hPnd : (Dict.keys (Dict.erase self "_filename")).Nodup :=
    Dict.nodup_keys_erase self "_filename" hnd
  have hset : setstate (Dict.erase self "_filename")
      = Dict.erase self "_filename" :=
    setstate_eq_of_nodup _ hPnd hPnf
  refine ⟨by simp only [store, hfn, getstate_eq self hkey], ?_, ?_⟩
  · simp only [init, restore, Dict.lookup_insert, setFS_same]
  · rw [hset]
    by_cases hkfn : k = "_filename"
    · subst hkfn
      rw [Dict.lookup_updateIfMem_not_items (Dict.erase self "_filename")
        "_filename" (Dict.insert defaults "_filename" fname) hPnf,
        Dict.lookup_insert, hfn]
    · by_cases hs : Dict.hasKey self k = true
      · have hkP : Dict.hasKey (Dict.erase self "_filename") k = true := by
          rw [Dict.hasKey_iff_mem_keys, Dict.mem_keys_erase]
          exact ⟨(Dict.hasKey_iff_mem_keys self k).mp hs, hkfn⟩
        have hkC : Dict.hasKey (Dict.insert defaults "_filename" fname) k
            = true := by
          rw [Dict.hasKey_iff_mem_keys, Dict.mem_keys_insert]
          left
          rw [hschema]
          exact (Dict.hasKey_iff_mem_keys _ k).mp hkP
        rw [Dict.lookup_updateIfMem_mem (Dict.erase self "_filename") k
          (Dict.insert defaults "_filename" fname) hPnd hkC hkP]
        exact Dict.lookup_erase_ne self hkfn
      · have hs' : Dict.hasKey self k = false := by
          cases hb : Dict.hasKey self k with
          | false => rfl
          | true => exact absurd hb hs
        have hkP : Dict.hasKey (Dict.erase self "_filename") k = false := by
          cases hb : Dict.hasKey (Dict.erase self "_filename") k with
          | false => rfl
          | true =>
            exfalso
            have hm := (Dict.hasKey_iff_mem_keys _ k).mp hb
            rw [Dict.mem_keys_erase] at hm
            have ht : Dict.hasKey self k = true :=
              (Dict.hasKey_iff_mem_keys self k).mpr hm.1
            rw [hs'] at ht
            exact Bool.false_ne_true ht
        have hkC : Dict.hasKey (Dict.insert defaults "_filename" fname) k
            = false := by
          cases hb : Dict.hasKey (Dict.insert defaults "_filename" fname) k with
          | false => rfl
          | true =>
            exfalso
            have hm := (Dict.hasKey_iff_mem_keys _ k).mp hb
            rw [Dict.mem_keys_insert] at hm
            rcases hm with hm | hm
            · rw [hschema] at hm
              have ht : Dict.hasKey (Dict.erase self "_filename") k = true :=
                (Dict.hasKey_iff_mem_keys _ k).mpr hm
              rw [hkP] at ht
              exact Bool.false_ne_true ht
            · exact hkfn hm
        have hr : Dict.hasKey
            (Dict.updateIfMem (Dict.insert defaults "_filename" fname)
              (Dict.erase self "_filename")) k = false := by
          rw [Dict.hasKey_updateIfMem]
          exact hkC
        rw [Dict.lookup_eq_none_of_hasKey_false _ k hr,
          Dict.lookup_eq_none_of_hasKey_false self k hs']

/-- Closed instance of C3: store `{u: "1", s: "2"}`, reload with fresh
defaults `{u: "x", s: "y"}`, and read back field `u`. -/
theorem round_trip_check :
    (Dict.keys ([("u", "1"), ("s", "2"), ("_filename", "f")] : Dict String)).Nodup ∧
    Dict.keys ([("u", "x"), ("s", "y")] : Dict String)
      = Dict.keys (Dict.erase
          ([("u", "1"), ("s", "2"), ("_filename", "f")] : Dict String)
          "_filename") ∧
    (store (fun _ => FSEntry.absent) [("u", "1"), ("s", "2"), ("_filename", "f")]
      = .ok (setFS (fun _ => FSEntry.absent) "f"
          (FSEntry.good (Dict.erase [("u", "1"), ("s", "2"), ("_filename", "f")]
            "_filename")),
          [("u", "1"), ("s", "2"), ("_filename", "f")]) ∧
    init (setFS (fun _ => FSEntry.absent) "f"
        (FSEntry.good (Dict.erase [("u", "1"), ("s", "2"), ("_filename", "f")]
          "_filename")))
        [("u", "x"), ("s", "y")] "f"
      = .ok (Dict.updateIfMem (Dict.insert [("u", "x"), ("s", "y")]
          "_filename" "f")
          (setstate (Dict.erase [("u", "1"), ("s", "2"), ("_filename", "f")]
            "_filename"))) ∧
    Dict.lookup (Dict.updateIfMem (Dict.insert [("u", "x"), ("s", "y")]
        "_filename" "f")
        (setstate (Dict.erase [("u", "1"), ("s", "2"), ("_filename", "f")]
          "_filename"))) "u"
      = Dict.lookup ([("u", "1"), ("s", "2"), ("_filename", "f")] : Dict String)
          "u") :=
  ⟨by decide, rfl,
    round_trip (fun _ => FSEntry.absent)
      [("u", "1"), ("s", "2"), ("_filename", "f")] [("u", "x"), ("s", "y")]
      "f" "u" (by decide) rfl rfl⟩

/-- C8: the spec says the string rendering produces one "key : value" line
per field, sorted by key name, excluding the backing identifier, keys
left-aligned.  The code (egstore.py line 133) instead iterates
`sorted(self.__dict__.keys())` — the key STRINGS — and unpacks each string
into a `(key, value)` pair, so on a record with fields
`{_filename: "f", user_id: "u"}` it raises `ValueError` ("too many values
to unpack") instead of producing the line `user_id : 'u'`. -/
theorem str_raises_value_error :
    strMeth ([("_filename", "f"), ("user_id", "u")] : Dict String)
      = .error PyErr.valueError := rfl

end EgStoreModel
